import Mathlib

/-!
Verification of the ACL message codec and agent dispatch logic of
`agent_communication.py` (a FIPA-ACL-inspired wire format with two
communicating actors sharing an append-only event log).

Python strings are modelled as `List Char` (Unicode scalar values).
The regex character classes `\w` and `\s` and `str.upper`/`str.strip`
are modelled on their ASCII fragment.  `ACL_PATTERN` is compiled without
`re.ASCII`, so the program's classes are Unicode-aware supersets of the
model's; likewise the codec model fails on two corners (`\N{...}` names,
lone-surrogate escapes) where Python succeeds.  The narrowing is one
directional — wherever a model-side class or the model codec accepts, the
program's does too, with the same result — and every theorem either
carries its inputs inside that shared fragment by hypothesis or uses
only this under-approximation direction.  Concrete inputs used below
stay inside the fragment, except where a counterexample needs a
non-ASCII *content* character, which the token classes do not touch.
-/

namespace AgentComm

/-- Python strings are modelled as lists of Unicode scalar values. -/
abbrev Str := List Char

/-- ASCII fragment of the regex class `\w`: letters, digits, underscore.
The pattern is compiled without `re.ASCII`, so the program's `\w` also
matches non-ASCII word characters; this model is a subset of it, and
theorems use it only on the hypothesis side (a `WordRun` here is matched
by the program too), never to characterize the program's failures. -/
def isWordChar (c : Char) : Bool := c.isAlphanum || c = '_'

/-- ASCII fragment of the class `[\w-]` for sender/receiver tokens; a
subset of the program's Unicode-aware class, used only on the hypothesis
side (see `isWordChar`). -/
def isTokenChar (c : Char) : Bool := isWordChar c || c = '-'

/-- ASCII fragment of the regex class `\s` (and of `str.strip`'s
whitespace): a subset of the program's Unicode-aware whitespace, used
only on the hypothesis side (a `SpaceRun` here is whitespace for the
program too; a decomposition whose parts start and end on non-whitespace
delimiters strips identically under both). -/
def isSpaceChar (c : Char) : Bool :=
  c = ' ' || c = '\t' || c = '\n' || c = '\r' || c = '\x0b' || c = '\x0c'

/-- Model of `raw_message.strip()`: drop leading and trailing whitespace. -/
def pyStrip (s : Str) : Str :=
  ((s.dropWhile isSpaceChar).reverse.dropWhile isSpaceChar).reverse

/-- Model of `str.upper` on its ASCII fragment. -/
def pyUpper (s : Str) : Str := s.map Char.toUpper

/-- The `ACLMessage` dataclass: performative, sender, receiver, content. -/
structure ACLMessage where
  performative : Str
  sender : Str
  receiver : Str
  content : Str
  deriving DecidableEq, Repr

/-- First escaping pass of `serialize`: `self.content.replace("\\", "\\\\")`. -/
def replaceBackslashes (s : Str) : Str :=
  s.flatMap fun c => if c = '\\' then ['\\', '\\'] else [c]

/-- Second escaping pass of `serialize`: `.replace('"', r'\"')`. -/
def replaceQuotes (s : Str) : Str :=
  s.flatMap fun c => if c = '"' then ['\\', '"'] else [c]

/-- The escaped content produced by `serialize`: backslashes doubled first,
then quotes backslash-escaped. -/
def escapeContent (s : Str) : Str := replaceQuotes (replaceBackslashes s)

/-- `ACLMessage.serialize`: the wire text
`(performative P :sender S :receiver R :content "C")` with `P` uppercased
and `C` the escaped content. -/
def serialize (m : ACLMessage) : Str :=
  "(performative ".toList ++ pyUpper m.performative ++
  " :sender ".toList ++ m.sender ++
  " :receiver ".toList ++ m.receiver ++
  " :content \"".toList ++ escapeContent m.content ++ "\")".toList

/-! ## The content decoding built-in

`parse` decodes the matched content group with
`bytes(group, "utf-8").decode("unicode_escape")`.  `utf8Bytes`/`utf8Encode`
model the `bytes(_, "utf-8")` step; `unicodeEscape` models the
`unicode_escape` codec, which reads each non-backslash byte as a Latin-1
character and interprets Python escape sequences after a backslash.
Two corners of the codec are modelled as decode failures because they
fall outside this embedding: `\N{...}` named escapes (a character-name
database lookup) and `\uXXXX`/`\UXXXXXXXX` escapes denoting lone
surrogates (Python strings admit lone surrogates, Lean `Char` does not).
The model's success is therefore a subset of the codec's, with identical
output wherever the model succeeds; theorems use the model's acceptance
only as a hypothesis, and no theorem characterizes the program's decode
failures through it. -/

/-- UTF-8 encoding of one scalar value, as a list of byte values. -/
def utf8Bytes (c : Char) : List Nat :=
  let n := c.toNat
  if n < 0x80 then [n]
  else if n < 0x800 then [0xC0 + n / 0x40, 0x80 + n % 0x40]
  else if n < 0x10000 then [0xE0 + n / 0x1000, 0x80 + n / 0x40 % 0x40, 0x80 + n % 0x40]
  else [0xF0 + n / 0x40000, 0x80 + n / 0x1000 % 0x40, 0x80 + n / 0x40 % 0x40, 0x80 + n % 0x40]

/-- Model of `bytes(s, "utf-8")`. -/
def utf8Encode (s : Str) : List Nat := s.flatMap utf8Bytes

/-- Value of an ASCII hex-digit byte. -/
def hexVal (b : Nat) : Option Nat :=
  if 0x30 ≤ b ∧ b ≤ 0x39 then some (b - 0x30)
  else if 0x41 ≤ b ∧ b ≤ 0x46 then some (b - 0x37)
  else if 0x61 ≤ b ∧ b ≤ 0x66 then some (b - 0x57)
  else none

/-- Whether a byte is an ASCII octal digit `0`-`7`. -/
def isOctDigit (b : Nat) : Bool := 0x30 ≤ b && b ≤ 0x37

/-- The character with code point `b` (used for Latin-1 bytes and small
escape values, all of which are valid scalar values). -/
def chrNat (b : Nat) : Char := Char.ofNat b

/-- A scalar value from a numeric escape; surrogates and out-of-range
values are rejected. -/
def mkScalar (n : Nat) : Option Char :=
  if n < 0xD800 ∨ (0xE000 ≤ n ∧ n ≤ 0x10FFFF) then some (Char.ofNat n) else none

/-- Scanner mode for the `unicode_escape` codec, processed one byte at a
time: `plain` between escapes, `esc` right after a backslash, `oct v more`
inside an octal escape with accumulated value `v` and `more` digits still
admissible, `hex total need acc` inside a `\xhh`/`\uhhhh`/`\Uhhhhhhhh`
escape with `need` digits missing out of `total`. -/
inductive UMode where
  | plain
  | esc
  | oct (v : Nat) (more : Nat)
  | hex (total : Nat) (need : Nat) (acc : Nat)
  deriving DecidableEq, Repr

/-- Byte-at-a-time model of `bytes.decode("unicode_escape")`: non-backslash
bytes are read as Latin-1; a backslash starts an escape sequence (simple
escapes, line continuation, up-to-three-digit octal, `\xhh`, `\uhhhh`,
`\Uhhhhhhhh`); an unrecognized escape keeps the backslash and the following
byte; a truncated escape at the end of input is an error, except a
terminated octal escape which emits its accumulated value. -/
def uDec : UMode → List Nat → Option (List Char)
  | .plain, [] => some []
  | .esc, [] => none
  | .oct v _, [] => some [chrNat v]
  | .hex _ _ _, [] => none
  | .plain, b :: bs =>
    if b = 0x5C then uDec .esc bs
    else (uDec .plain bs).map (chrNat b :: ·)
  | .esc, b :: bs =>
    if b = 0x0A then uDec .plain bs
    else if b = 0x5C then (uDec .plain bs).map ('\\' :: ·)
    else if b = 0x27 then (uDec .plain bs).map ('\'' :: ·)
    else if b = 0x22 then (uDec .plain bs).map ('"' :: ·)
    else if b = 0x61 then (uDec .plain bs).map ('\x07' :: ·)
    else if b = 0x62 then (uDec .plain bs).map ('\x08' :: ·)
    else if b = 0x66 then (uDec .plain bs).map ('\x0C' :: ·)
    else if b = 0x6E then (uDec .plain bs).map ('\n' :: ·)
    else if b = 0x72 then (uDec .plain bs).map ('\x0D' :: ·)
    else if b = 0x74 then (uDec .plain bs).map ('\t' :: ·)
    else if b = 0x76 then (uDec .plain bs).map ('\x0B' :: ·)
    else if isOctDigit b then uDec (.oct (b - 0x30) 2) bs
    else if b = 0x78 then uDec (.hex 2 2 0) bs
    else if b = 0x75 then uDec (.hex 4 4 0) bs
    else if b = 0x55 then uDec (.hex 8 8 0) bs
    else if b = 0x4E then none
    else (uDec .plain bs).map (fun l => '\\' :: chrNat b :: l)
  | .oct v more, b :: bs =>
    if isOctDigit b && !(more == 0) then uDec (.oct (8 * v + (b - 0x30)) (more - 1)) bs
    else if b = 0x5C then (uDec .esc bs).map (chrNat v :: ·)
    else (uDec .plain bs).map (fun l => chrNat v :: chrNat b :: l)
  | .hex total need acc, b :: bs =>
    match hexVal b with
    | none => none
    | some v =>
      if need = 1 then
        match (if total = 2 then some (chrNat (0x10 * acc + v))
            else mkScalar (0x10 * acc + v)) with
        | some c => (uDec .plain bs).map (c :: ·)
        | none => none
      else uDec (.hex total (need - 1) (0x10 * acc + v)) bs

/-- Model of `bytes.decode("unicode_escape")` on a whole byte string. -/
def unicodeEscape (bs : List Nat) : Option (List Char) := uDec .plain bs

/-! ## The wire-format matcher

`ACL_PATTERN` is an anchored regex; every quantifier in it is
deterministic (each repeated class is disjoint from what legally follows
it, and the content group's token reading is forced), so `re.match` is
modelled by a recursive-descent matcher over the same grammar. -/

/-- Greedy reading of a non-empty run `p+`, returning the run and the rest. -/
def takeRun (p : Char → Bool) (s : Str) : Option (Str × Str) :=
  if s.takeWhile p = [] then none else some (s.takeWhile p, s.dropWhile p)

/-- Match a literal string, returning the remainder. -/
def expectLit : Str → Str → Option Str
  | [], s => some s
  | _ :: _, [] => none
  | l :: ls, c :: cs => if c = l then expectLit ls cs else none

/-- Greedy reading of the content group `(?:\\.|[^"\\])*` followed by the
closing `"`: a backslash always pairs with the following (non-newline)
character, the group ends at the first unescaped quote.  Returns the raw
matched body and the text after the closing quote. -/
def scanBody : Str → Option (Str × Str)
  | [] => none
  | '"' :: cs => some ([], cs)
  | '\\' :: [] => none
  | '\\' :: e :: cs2 =>
    if e = '\n' then none
    else (scanBody cs2).map fun br => ('\\' :: e :: br.1, br.2)
  | c :: cs => (scanBody cs).map fun br => (c :: br.1, br.2)

/-- One `LITERAL\s+CLASS+\s+` segment of `ACL_PATTERN`: a literal keyword,
whitespace, a non-empty run of `cls` characters (the captured group), more
whitespace.  Returns the captured group and the remainder. -/
def fieldTok (lit : Str) (cls : Char → Bool) (s : Str) : Option (Str × Str) :=
  (expectLit lit s).bind fun s1 =>
  (takeRun isSpaceChar s1).bind fun q1 =>
  (takeRun cls q1.2).bind fun q2 =>
  (takeRun isSpaceChar q2.2).bind fun q3 =>
  some (q2.1, q3.2)

/-- Model of `ACL_PATTERN.match` on an already-stripped string: on a match,
the four captured groups (performative, sender, receiver, raw content
body). The final test `br.2 = [')']` is the regex's closing `\)` together
with the `$` anchor (the input is stripped, so `$` means end of string). -/
def matchACL (s : Str) : Option (Str × Str × Str × Str) :=
  (fieldTok "(performative".toList isWordChar s).bind fun f1 =>
  (fieldTok ":sender".toList isTokenChar f1.2).bind fun f2 =>
  (fieldTok ":receiver".toList isTokenChar f2.2).bind fun f3 =>
  (expectLit ":content".toList f3.2).bind fun s4 =>
  (takeRun isSpaceChar s4).bind fun q =>
  (expectLit ['"'] q.2).bind fun s6 =>
  (scanBody s6).bind fun br =>
  if br.2 = [')'] then some (f1.1, f2.1, f3.1, br.1) else none

/-- The three ways `ACLMessage.parse` can fail, all raised as `ValueError`
in the source: a structural mismatch (carrying the raw text), an
unsupported performative (carrying the uppercased performative), and a
`UnicodeDecodeError` from the content codec (a `ValueError` subclass). -/
inductive ParseError where
  | invalidFormat (raw : Str)
  | unsupportedPerformative (p : Str)
  | unicodeDecodeError
  deriving DecidableEq, Repr

/-- `ALLOWED_PERFORMATIVES = {"REQUEST", "INFORM"}`. -/
def ALLOWED_PERFORMATIVES : List Str := ["REQUEST".toList, "INFORM".toList]

/-- `ACLMessage.parse`: strip, match the pattern, check the uppercased
performative, then decode the content group with
`bytes(_, "utf-8").decode("unicode_escape")`. -/
def parse (raw : Str) : Except ParseError ACLMessage :=
  match matchACL (pyStrip raw) with
  | none => .error (.invalidFormat raw)
  | some (perf, sndr, rcvr, body) =>
    if pyUpper perf ∈ ALLOWED_PERFORMATIVES then
      match unicodeEscape (utf8Encode body) with
      | some content => .ok ⟨pyUpper perf, sndr, rcvr, content⟩
      | none => .error .unicodeDecodeError
    else .error (.unsupportedPerformative (pyUpper perf))

/-! ## Logger and agents

`EventLogger` timestamps entries with a synthetic clock starting at
`datetime(2026, 1, 1, 10, 0, 0)` and advancing one second per entry; the
model keeps the clock as a count of seconds since that instant, and a log
entry as its timestamp, agent name and event text (the source renders the
same three data into the line `[timestamp] name: event`). -/

/-- One line of the event record. -/
structure LogEntry where
  time : Nat
  agent : Str
  event : Str
  deriving DecidableEq, Repr

/-- The `EventLogger` state: the entries so far and the current clock. -/
structure LoggerState where
  entries : List LogEntry
  current : Nat
  deriving DecidableEq, Repr

/-- `EventLogger.add`: append one entry at the current time, then advance
the clock by one second. -/
def loggerAdd (st : LoggerState) (name event : Str) : LoggerState :=
  ⟨st.entries ++ [⟨st.current, name, event⟩], st.current + 1⟩

/-- The text of the `ValueError` raised by `parse`, as interpolated into
the rejection log entry (the `UnicodeDecodeError` text is abbreviated to
its codec prefix). -/
def renderError : ParseError → Str
  | .invalidFormat raw => "Invalid ACL message format: ".toList ++ raw
  | .unsupportedPerformative p => "Unsupported performative: ".toList ++ p
  | .unicodeDecodeError => "'unicodeescape' codec can't decode bytes".toList

/-- `Agent._handle_request`. -/
def handleRequest (name : Str) (m : ACLMessage) (st : LoggerState) : LoggerState :=
  loggerAdd st name ("Processing REQUEST action: ".toList ++ m.content)

/-- `Agent._handle_inform`. -/
def handleInform (name : Str) (m : ACLMessage) (st : LoggerState) : LoggerState :=
  loggerAdd st name ("Acknowledged INFORM update: ".toList ++ m.content)

/-- The `self.handlers` dictionary lookup `self.handlers.get(performative)`. -/
def handlers (p : Str) : Option (Str → ACLMessage → LoggerState → LoggerState) :=
  if p = "REQUEST".toList then some handleRequest
  else if p = "INFORM".toList then some handleInform
  else none

/-- `Agent.receive`: parse (logging a rejection on any `ValueError`),
check addressing (logging an ignore), log receipt, dispatch. -/
def receive (name : Str) (raw : Str) (st : LoggerState) : LoggerState :=
  match parse raw with
  | .error e =>
    loggerAdd st name ("Rejected malformed ACL message | ".toList ++ renderError e)
  | .ok m =>
    if m.receiver ≠ name then
      loggerAdd st name ("Ignored message for ".toList ++ m.receiver ++
        " from ".toList ++ m.sender ++ " | ".toList ++ m.content)
    else
      let st1 := loggerAdd st name ("Received ".toList ++ m.performative ++
        " from ".toList ++ m.sender ++ " | ".toList ++ m.content)
      match handlers m.performative with
      | some h => h name m st1
      | none =>
        loggerAdd st1 name ("No handler for performative: ".toList ++ m.performative)

/-- The `ValueError` raised by `Agent.send` on a sender mismatch. -/
inductive SendError where
  | senderMismatch (msgSender selfName : Str)
  deriving DecidableEq, Repr

/-- `Agent.send`: check the sender first (raising without touching the
log), then log the send and deliver the serialized text to the target's
`receive` synchronously.  The returned state is the shared logger after
the call; `some` error models the raised `ValueError`, in which case the
state is unchanged. -/
def send (selfName otherName : Str) (m : ACLMessage) (st : LoggerState) :
    LoggerState × Option SendError :=
  if m.sender ≠ selfName then (st, some (.senderMismatch m.sender selfName))
  else
    let st1 := loggerAdd st selfName ("Sent ".toList ++ pyUpper m.performative ++
      " to ".toList ++ otherName ++ " | ".toList ++ m.content)
    (receive otherName (serialize m) st1, none)

/-- A public operation on the shared logger: some agent sends a message to
another, or some agent receives raw wire text. -/
inductive AgentOp where
  | send (selfName otherName : Str) (m : ACLMessage)
  | recv (name : Str) (raw : Str)

/-- Run one operation against the shared logger state (a failing `send`
leaves the state unchanged, as the exception is raised before logging). -/
def applyOp : AgentOp → LoggerState → LoggerState
  | .send s o m, st => (send s o m st).1
  | .recv n r, st => receive n r st

/-- The clock origin `datetime(2026, 1, 1, 10, 0, 0)`, as second zero of
the session. -/
def demoStart : Nat := 0

/-- `run_demo`: PlannerAgent sends a REQUEST to WorkerAgent, then
WorkerAgent sends an INFORM back, on a fresh shared logger. -/
def runDemo : LoggerState :=
  let planner := "PlannerAgent".toList
  let worker := "WorkerAgent".toList
  let st0 : LoggerState := ⟨[], demoStart⟩
  let st1 := (send planner worker
    ⟨"REQUEST".toList, planner, worker,
      "Collect temperature readings in Zone A".toList⟩ st0).1
  (send worker planner
    ⟨"INFORM".toList, worker, planner,
      "Zone A readings complete: avg=24.3C".toList⟩ st1).1

/-! ## Spec-side definitions

These follow the specification's words (not the code) and are compared
with the code-derived definitions in the claim theorems. -/

/-- Spec-side single-character escaping: a backslash becomes a double
backslash, a quote becomes backslash-quote, anything else is untouched. -/
def specEscapeChar (c : Char) : Str :=
  if c = '\\' then ['\\', '\\'] else if c = '"' then ['\\', '"'] else [c]

/-- Spec-side unescaping: reverse exactly the encode-time substitutions,
replacing each backslash-quote pair by a quote and each double-backslash
pair by a backslash, altering nothing else. -/
def simpleUnescape : Str → Str
  | [] => []
  | '\\' :: '"' :: rest => '"' :: simpleUnescape rest
  | '\\' :: '\\' :: rest => '\\' :: simpleUnescape rest
  | c :: rest => c :: simpleUnescape rest

/-- A non-empty run of whitespace (the grammar's `\s+`). -/
def SpaceRun (s : Str) : Prop := s ≠ [] ∧ ∀ c ∈ s, isSpaceChar c = true

/-- A non-empty run of word characters (the grammar's `\w+`). -/
def WordRun (s : Str) : Prop := s ≠ [] ∧ ∀ c ∈ s, isWordChar c = true

/-- A non-empty run of token characters (the grammar's `[\w-]+`). -/
def TokenRun (s : Str) : Prop := s ≠ [] ∧ ∀ c ∈ s, isTokenChar c = true

/-- One token of the content group: an escape pair (backslash plus any
non-newline character) or a single character that is neither a quote nor
a backslash. -/
def ChunkOK (t : Str) : Prop :=
  (∃ c, t = ['\\', c] ∧ c ≠ '\n') ∨ (∃ c, t = [c] ∧ c ≠ '"' ∧ c ≠ '\\')

/-- A legal content body: a concatenation of content-group tokens. -/
def BodyOK (s : Str) : Prop := ∃ ts : List Str, s = ts.flatten ∧ ∀ t ∈ ts, ChunkOK t

/-- Declarative reading of `ACL_PATTERN`: `s` decomposes into the quoted
literals, whitespace runs, the three captured token runs and the quoted
content body, anchored at both ends. -/
def gramParts (s P S R body : Str) : Prop :=
  ∃ w1 w2 w3 w4 w5 w6 w7,
    SpaceRun w1 ∧ SpaceRun w2 ∧ SpaceRun w3 ∧ SpaceRun w4 ∧ SpaceRun w5 ∧
    SpaceRun w6 ∧ SpaceRun w7 ∧ WordRun P ∧ TokenRun S ∧ TokenRun R ∧ BodyOK body ∧
    s = "(performative".toList ++ w1 ++ P ++ w2 ++
      ":sender".toList ++ w3 ++ S ++ w4 ++
      ":receiver".toList ++ w5 ++ R ++ w6 ++
      ":content".toList ++ w7 ++ ['"'] ++ body ++ "\")".toList

/-! ## Character class facts -/

theorem word_not_space {c : Char} (h : isWordChar c = true) : isSpaceChar c = false := by
  cases hsp : isSpaceChar c with
  | false => rfl
  | true =>
    exfalso
    have : c = ' ' ∨ c = '\t' ∨ c = '\n' ∨ c = '\x0d' ∨ c = '\x0b' ∨ c = '\x0c' := by
      simpa [isSpaceChar, or_assoc] using hsp
    rcases this with rfl | rfl | rfl | rfl | rfl | rfl <;> exact absurd h (by decide)

theorem token_not_space {c : Char} (h : isTokenChar c = true) : isSpaceChar c = false := by
  rcases Bool.or_eq_true_iff.mp h with hw | hd
  · exact word_not_space hw
  · have : c = '-' := by simpa using hd
    subst this; rfl

theorem space_not_word {c : Char} (h : isSpaceChar c = true) : isWordChar c = false := by
  cases hw : isWordChar c with
  | false => rfl
  | true => rw [word_not_space hw] at h; exact absurd h (by simp)

theorem space_not_token {c : Char} (h : isSpaceChar c = true) : isTokenChar c = false := by
  cases hw : isTokenChar c with
  | false => rfl
  | true => rw [token_not_space hw] at h; exact absurd h (by simp)

/-! ## Matcher combinator lemmas -/

theorem expectLit_append (lit r : Str) : expectLit lit (lit ++ r) = some r := by
  induction lit with
  | nil => rfl
  | cons c cs ih => simp [expectLit, ih]

theorem expectLit_sound {lit s r : Str} (h : expectLit lit s = some r) : s = lit ++ r := by
  induction lit generalizing s with
  | nil => simpa [expectLit] using h
  | cons c cs ih =>
    match s with
    | [] => exact absurd h (by simp [expectLit])
    | d :: ds =>
      simp only [expectLit] at h
      split at h
      · next heq => simp [heq, ih h]
      · exact absurd h (by simp)

theorem takeWhile_append_run {p : Char → Bool} {t r : Str} (ht : ∀ c ∈ t, p c = true)
    (hr : ∀ c ∈ r.head?, p c = false) : (t ++ r).takeWhile p = t := by
  induction t with
  | nil =>
    match r with
    | [] => rfl
    | c :: cs =>
      have : p c = false := hr c (by simp)
      simp [List.takeWhile_cons, this]
  | cons c cs ih =>
    have hc : p c = true := ht c (by simp)
    simp [List.takeWhile_cons, hc, ih (fun d hd => ht d (by simp [hd]))]

theorem dropWhile_append_run {p : Char → Bool} {t r : Str} (ht : ∀ c ∈ t, p c = true)
    (hr : ∀ c ∈ r.head?, p c = false) : (t ++ r).dropWhile p = r := by
  induction t with
  | nil =>
    match r with
    | [] => rfl
    | c :: cs =>
      have : p c = false := hr c (by simp)
      simp [List.dropWhile_cons, this]
  | cons c cs ih =>
    have hc : p c = true := ht c (by simp)
    simp [List.dropWhile_cons, hc, ih (fun d hd => ht d (by simp [hd]))]

theorem head_dropWhile_not (p : Char → Bool) (s : Str) :
    ∀ c ∈ (s.dropWhile p).head?, p c = false := by
  induction s with
  | nil => simp
  | cons c cs ih =>
    rw [List.dropWhile_cons]
    split
    · exact ih
    · next h =>
      intro d hd
      simp only [List.head?_cons, Option.mem_def, Option.some.injEq] at hd
      subst hd
      exact Bool.not_eq_true _ ▸ h

theorem takeRun_append {p : Char → Bool} {t r : Str} (hne : t ≠ [])
    (ht : ∀ c ∈ t, p c = true) (hr : ∀ c ∈ r.head?, p c = false) :
    takeRun p (t ++ r) = some (t, r) := by
  simp [takeRun, takeWhile_append_run ht hr, dropWhile_append_run ht hr, hne]

theorem takeRun_sound {p : Char → Bool} {s t r : Str} (h : takeRun p s = some (t, r)) :
    s = t ++ r ∧ t ≠ [] ∧ (∀ c ∈ t, p c = true) ∧ (∀ c ∈ r.head?, p c = false) := by
  simp only [takeRun] at h
  split at h
  · exact absurd h (by simp)
  · next hne =>
    obtain ⟨h1, h2⟩ : s.takeWhile p = t ∧ s.dropWhile p = r := by
      have := Option.some.inj h
      exact ⟨congrArg Prod.fst this, congrArg Prod.snd this⟩
    refine ⟨by rw [← h1, ← h2, List.takeWhile_append_dropWhile], h1 ▸ hne, ?_, ?_⟩
    · intro c hc
      exact List.mem_takeWhile_imp (h1 ▸ hc)
    · exact h2 ▸ head_dropWhile_not p s

theorem scanBody_append {ts : List Str} (hts : ∀ t ∈ ts, ChunkOK t) (rest : Str) :
    scanBody (ts.flatten ++ '"' :: rest) = some (ts.flatten, rest) := by
  induction ts with
  | nil => simp only [List.flatten_nil, List.nil_append]; rfl
  | cons t ts ih =>
    have ihr := ih (fun u hu => hts u (by simp [hu]))
    rcases hts t (by simp) with ⟨c, rfl, hc⟩ | ⟨c, rfl, hq, hb⟩
    · simp only [List.flatten_cons, List.append_assoc, List.cons_append, List.nil_append]
      rw [scanBody, if_neg hc, ihr]
      rfl
    · simp only [List.flatten_cons, List.append_assoc, List.cons_append, List.nil_append]
      have heq : scanBody (c :: (ts.flatten ++ '"' :: rest)) =
          (scanBody (ts.flatten ++ '"' :: rest)).map fun br => (c :: br.1, br.2) := by
        simp [scanBody, hq, hb]
      rw [heq, ihr]
      rfl

theorem scanBody_sound {s b r : Str} (h : scanBody s = some (b, r)) :
    s = b ++ '"' :: r ∧ BodyOK b := by
  induction s using scanBody.induct generalizing b r with
  | case1 => exact absurd h (by simp [scanBody])
  | case2 cs =>
    rw [scanBody] at h
    obtain ⟨rfl, rfl⟩ : ([] : Str) = b ∧ cs = r := by
      have := Option.some.inj h
      exact ⟨congrArg Prod.fst this, congrArg Prod.snd this⟩
    exact ⟨rfl, ⟨[], rfl, by simp⟩⟩
  | case3 => exact absurd h (by simp [scanBody])
  | case4 cs2 => rw [scanBody, if_pos rfl] at h; exact absurd h (by simp)
  | case5 e cs2 hn ih =>
    rw [scanBody, if_neg hn] at h
    match hsb : scanBody cs2 with
    | none => rw [hsb] at h; exact absurd h (by simp)
    | some (b2, r2) =>
      rw [hsb] at h
      simp only [Option.map_some', Option.some.injEq, Prod.mk.injEq] at h
      obtain ⟨rfl, rfl⟩ := h
      obtain ⟨rfl, ts, rfl, hts⟩ := ih hsb
      refine ⟨by simp, ['\\', e] :: ts, by simp, ?_⟩
      intro u hu
      rcases List.mem_cons.mp hu with rfl | hu
      · exact Or.inl ⟨e, rfl, hn⟩
      · exact hts u hu
  | case6 c cs hq hb1 hb2 ih =>
    have hq' : ¬ c = '"' := hq
    have hb : ¬ c = '\\' := fun hc => by
      cases cs with
      | nil => exact hb1 hc rfl
      | cons e cs2 => exact hb2 e cs2 hc rfl
    have heq : scanBody (c :: cs) = (scanBody cs).map fun br => (c :: br.1, br.2) := by
      simp [scanBody, hq', hb]
    rw [heq] at h
    match hsb : scanBody cs with
    | none => rw [hsb] at h; exact absurd h (by simp)
    | some (b2, r2) =>
      rw [hsb] at h
      simp only [Option.map_some', Option.some.injEq, Prod.mk.injEq] at h
      obtain ⟨rfl, rfl⟩ := h
      obtain ⟨rfl, ts, rfl, hts⟩ := ih hsb
      refine ⟨by simp, [c] :: ts, by simp, ?_⟩
      intro u hu
      rcases List.mem_cons.mp hu with rfl | hu
      · exact Or.inr ⟨c, rfl, hq', hb⟩
      · exact hts u hu

/-! ## fieldTok characterization -/

theorem fieldTok_append {lit tok w1 w2 rest : Str} {cls : Char → Bool}
    (hw1 : SpaceRun w1) (hw2 : SpaceRun w2)
    (htne : tok ≠ []) (htok : ∀ c ∈ tok, cls c = true)
    (hcs : ∀ c, cls c = true → isSpaceChar c = false)
    (hsc : ∀ c, isSpaceChar c = true → cls c = false)
    (hrest : ∀ c ∈ rest.head?, isSpaceChar c = false) :
    fieldTok lit cls (lit ++ (w1 ++ (tok ++ (w2 ++ rest)))) = some (tok, rest) := by
  obtain ⟨hw1ne, hw1s⟩ := hw1
  obtain ⟨hw2ne, hw2s⟩ := hw2
  have htok_head : ∀ c ∈ (tok ++ (w2 ++ rest)).head?, isSpaceChar c = false := by
    match tok, htne with
    | t :: ts, _ =>
      intro c hc
      simp only [List.cons_append, List.head?_cons, Option.mem_def, Option.some.injEq] at hc
      subst hc
      exact hcs _ (htok _ (by simp))
  have hw2_head : ∀ c ∈ (w2 ++ rest).head?, cls c = false := by
    match w2, hw2ne with
    | u :: us, _ =>
      intro c hc
      simp only [List.cons_append, List.head?_cons, Option.mem_def, Option.some.injEq] at hc
      subst hc
      exact hsc _ (hw2s _ (by simp))
  rw [fieldTok, expectLit_append]
  simp only [Option.some_bind]
  rw [takeRun_append hw1ne hw1s htok_head]
  simp only [Option.some_bind]
  rw [takeRun_append htne htok hw2_head]
  simp only [Option.some_bind]
  rw [takeRun_append hw2ne hw2s hrest]
  simp only [Option.some_bind]

theorem fieldTok_sound {lit tok rest s : Str} {cls : Char → Bool}
    (h : fieldTok lit cls s = some (tok, rest)) :
    ∃ w1 w2, SpaceRun w1 ∧ SpaceRun w2 ∧ tok ≠ [] ∧ (∀ c ∈ tok, cls c = true) ∧
      s = lit ++ (w1 ++ (tok ++ (w2 ++ rest))) := by
  rw [fieldTok] at h
  match h1 : expectLit lit s with
  | none => rw [h1] at h; exact absurd h (by simp)
  | some s1 =>
    rw [h1, Option.some_bind] at h
    match h2 : takeRun isSpaceChar s1 with
    | none => rw [h2] at h; exact absurd h (by simp)
    | some (w1, s2) =>
      rw [h2, Option.some_bind] at h
      match h3 : takeRun cls s2 with
      | none => rw [h3] at h; exact absurd h (by simp)
      | some (tk, s3) =>
        rw [h3, Option.some_bind] at h
        match h4 : takeRun isSpaceChar s3 with
        | none => rw [h4] at h; exact absurd h (by simp)
        | some (w2, s4) =>
          rw [h4, Option.some_bind] at h
          obtain ⟨rfl, rfl⟩ : tk = tok ∧ s4 = rest := by
            have := Option.some.inj h
            exact ⟨congrArg Prod.fst this, congrArg Prod.snd this⟩
          obtain ⟨rfl, hw1ne, hw1s, -⟩ := takeRun_sound h2
          obtain ⟨rfl, htne, hts, -⟩ := takeRun_sound h3
          obtain ⟨rfl, hw2ne, hw2s, -⟩ := takeRun_sound h4
          exact ⟨w1, w2, ⟨hw1ne, hw1s⟩, ⟨hw2ne, hw2s⟩, htne, hts,
            by simp [expectLit_sound h1, List.append_assoc]⟩

theorem head_append_lit {lit : Str} (c0 : Char) (hl : lit.head? = some c0) (X : Str) :
    (lit ++ X).head? = some c0 := by
  cases lit with
  | nil => simp at hl
  | cons a as => simpa using hl

theorem head_not_space_append {lit : Str} (c0 : Char) (hl : lit.head? = some c0)
    (h0 : isSpaceChar c0 = false) (X : Str) :
    ∀ c ∈ (lit ++ X).head?, isSpaceChar c = false := by
  intro c hc
  rw [head_append_lit c0 hl] at hc
  simp only [Option.mem_def, Option.some.injEq] at hc
  subst hc
  exact h0

/-! ## matchACL characterization -/

theorem matchACL_complete {P S R : Str} {w1 w2 w3 w4 w5 w6 w7 : Str} {ts : List Str}
    (hw1 : SpaceRun w1) (hw2 : SpaceRun w2) (hw3 : SpaceRun w3) (hw4 : SpaceRun w4)
    (hw5 : SpaceRun w5) (hw6 : SpaceRun w6) (hw7 : SpaceRun w7)
    (hP : WordRun P) (hS : TokenRun S) (hR : TokenRun R)
    (hts : ∀ t ∈ ts, ChunkOK t) :
    matchACL ("(performative".toList ++ (w1 ++ (P ++ (w2 ++
      (":sender".toList ++ (w3 ++ (S ++ (w4 ++
      (":receiver".toList ++ (w5 ++ (R ++ (w6 ++
      (":content".toList ++ (w7 ++ ('"' :: (ts.flatten ++ "\")".toList)))))))))))))))) =
      some (P, S, R, ts.flatten) := by
  obtain ⟨hw7ne, hw7s⟩ := hw7
  rw [matchACL]
  rw [fieldTok_append hw1 hw2 hP.1 hP.2 (fun c h => word_not_space h)
    (fun c h => space_not_word h)
    (by
      intro c hc
      have hc2 : c ∈ (some ':' : Option Char) := hc
      simp only [Option.mem_def, Option.some.injEq] at hc2
      subst hc2
      decide)]
  simp only [Option.some_bind]
  rw [fieldTok_append hw3 hw4 hS.1 hS.2 (fun c h => token_not_space h)
    (fun c h => space_not_token h)
    (by
      intro c hc
      have hc2 : c ∈ (some ':' : Option Char) := hc
      simp only [Option.mem_def, Option.some.injEq] at hc2
      subst hc2
      decide)]
  simp only [Option.some_bind]
  rw [fieldTok_append hw5 hw6 hR.1 hR.2 (fun c h => token_not_space h)
    (fun c h => space_not_token h)
    (by
      intro c hc
      have hc2 : c ∈ (some ':' : Option Char) := hc
      simp only [Option.mem_def, Option.some.injEq] at hc2
      subst hc2
      decide)]
  simp only [Option.some_bind]
  rw [expectLit_append]
  simp only [Option.some_bind]
  have hqh : ∀ c ∈ (('"' :: (ts.flatten ++ "\")".toList)) : Str).head?, isSpaceChar c = false := by
    intro c hc
    simp only [List.head?_cons, Option.mem_def, Option.some.injEq] at hc
    subst hc
    decide
  rw [takeRun_append hw7ne hw7s hqh]
  simp only [Option.some_bind]
  have hquote : expectLit ['"'] ('"' :: (ts.flatten ++ "\")".toList)) =
      some (ts.flatten ++ "\")".toList) := rfl
  rw [hquote]
  simp only [Option.some_bind]
  have htail : ts.flatten ++ "\")".toList = ts.flatten ++ '"' :: [')'] := rfl
  rw [htail, scanBody_append hts]
  simp only [Option.some_bind]
  rfl

theorem matchACL_of_gramParts {s P S R body : Str} (h : gramParts s P S R body) :
    matchACL s = some (P, S, R, body) := by
  obtain ⟨w1, w2, w3, w4, w5, w6, w7, hw1, hw2, hw3, hw4, hw5, hw6, hw7,
    hP, hS, hR, hB, rfl⟩ := h
  obtain ⟨ts, rfl, hts⟩ := hB
  have hnorm : "(performative".toList ++ w1 ++ P ++ w2 ++
      ":sender".toList ++ w3 ++ S ++ w4 ++
      ":receiver".toList ++ w5 ++ R ++ w6 ++
      ":content".toList ++ w7 ++ ['"'] ++ ts.flatten ++ "\")".toList =
      "(performative".toList ++ (w1 ++ (P ++ (w2 ++
      (":sender".toList ++ (w3 ++ (S ++ (w4 ++
      (":receiver".toList ++ (w5 ++ (R ++ (w6 ++
      (":content".toList ++ (w7 ++ ('"' :: (ts.flatten ++ "\")".toList))))))))))))))) := by
    simp only [List.append_assoc, List.singleton_append, List.cons_append, List.nil_append]
  rw [hnorm]
  exact matchACL_complete hw1 hw2 hw3 hw4 hw5 hw6 hw7 hP hS hR hts

theorem matchACL_sound {s : Str} {P S R body : Str}
    (h : matchACL s = some (P, S, R, body)) : gramParts s P S R body := by
  rw [matchACL] at h
  match hf1 : fieldTok "(performative".toList isWordChar s with
  | none => rw [hf1] at h; exact absurd h (by simp)
  | some (P1, s1) =>
    rw [hf1, Option.some_bind] at h
    match hf2 : fieldTok ":sender".toList isTokenChar s1 with
    | none => rw [hf2] at h; exact absurd h (by simp)
    | some (S1, s2) =>
      rw [hf2, Option.some_bind] at h
      match hf3 : fieldTok ":receiver".toList isTokenChar s2 with
      | none => rw [hf3] at h; exact absurd h (by simp)
      | some (R1, s3) =>
        rw [hf3, Option.some_bind] at h
        match he1 : expectLit ":content".toList s3 with
        | none => rw [he1] at h; exact absurd h (by simp)
        | some s4 =>
          rw [he1, Option.some_bind] at h
          match ht1 : takeRun isSpaceChar s4 with
          | none => rw [ht1] at h; exact absurd h (by simp)
          | some (w7, s5) =>
            rw [ht1, Option.some_bind] at h
            match he2 : expectLit ['"'] s5 with
            | none => rw [he2] at h; exact absurd h (by simp)
            | some s6 =>
              rw [he2, Option.some_bind] at h
              match hsb : scanBody s6 with
              | none => rw [hsb] at h; exact absurd h (by simp)
              | some (b1, s7) =>
                rw [hsb, Option.some_bind] at h
                by_cases hend : s7 = [')']
                · rw [if_pos hend] at h
                  subst hend
                  obtain ⟨rfl, rfl, rfl, rfl⟩ : P1 = P ∧ S1 = S ∧ R1 = R ∧ b1 = body := by
                    have := Option.some.inj h
                    refine ⟨congrArg (·.1) this, congrArg (·.2.1) this,
                      congrArg (·.2.2.1) this, congrArg (·.2.2.2) this⟩
                  obtain ⟨w1, w2, hw1, hw2, hPne, hPs, rfl⟩ := fieldTok_sound hf1
                  obtain ⟨w3, w4, hw3, hw4, hSne, hSs, rfl⟩ := fieldTok_sound hf2
                  obtain ⟨w5, w6, hw5, hw6, hRne, hRs, rfl⟩ := fieldTok_sound hf3
                  have hs3 := expectLit_sound he1
                  obtain ⟨rfl, hw7ne, hw7s, -⟩ := takeRun_sound ht1
                  have hs5 := expectLit_sound he2
                  obtain ⟨rfl, hbody⟩ := scanBody_sound hsb
                  refine ⟨w1, w2, w3, w4, w5, w6, w7, hw1, hw2, hw3, hw4, hw5, hw6,
                    ⟨hw7ne, hw7s⟩, ⟨hPne, hPs⟩, ⟨hSne, hSs⟩, ⟨hRne, hRs⟩, hbody, ?_⟩
                  rw [hs3, hs5]
                  have h9 : (('"' :: [')']) : Str) = "\")".toList := rfl
                  simp only [List.append_assoc, List.singleton_append, h9, List.cons_append,
                    List.nil_append]
                · rw [if_neg hend] at h
                  exact absurd h (by simp)

/-! ## Stripping -/

theorem dropWhile_head_not {p : Char → Bool} {s : Str}
    (h : ∀ c ∈ s.head?, p c = false) : s.dropWhile p = s := by
  cases s with
  | nil => rfl
  | cons c cs =>
    have : p c = false := h c (by simp)
    simp [List.dropWhile_cons, this]

theorem pyStrip_eq_self {s : Str} (h1 : ∀ c ∈ s.head?, isSpaceChar c = false)
    (h2 : ∀ c ∈ s.getLast?, isSpaceChar c = false) : pyStrip s = s := by
  rw [pyStrip, dropWhile_head_not h1, dropWhile_head_not (by
    intro c hc
    rw [List.head?_reverse] at hc
    exact h2 c hc), List.reverse_reverse]

/-! ## Escaping and unescaping -/

theorem escapeContent_cons (c : Char) (cs : Str) :
    escapeContent (c :: cs) = specEscapeChar c ++ escapeContent cs := by
  by_cases hb : c = '\\'
  · subst hb
    simp [escapeContent, replaceBackslashes, replaceQuotes, specEscapeChar,
      List.flatMap_cons, List.flatMap_append]
  · by_cases hq : c = '"'
    · subst hq
      simp [escapeContent, replaceBackslashes, replaceQuotes, specEscapeChar,
        List.flatMap_cons, List.flatMap_append]
    · simp [escapeContent, replaceBackslashes, replaceQuotes, specEscapeChar,
        List.flatMap_cons, List.flatMap_append, hb, hq]

theorem escapeContent_eq (s : Str) : escapeContent s = s.flatMap specEscapeChar := by
  induction s with
  | nil => rfl
  | cons c cs ih => rw [escapeContent_cons, ih, List.flatMap_cons]

theorem sU_bq (r : Str) : simpleUnescape ('\\' :: '"' :: r) = '"' :: simpleUnescape r := rfl

theorem sU_bb (r : Str) : simpleUnescape ('\\' :: '\\' :: r) = '\\' :: simpleUnescape r := rfl

theorem sU_plain {c : Char} (hc : ¬ c = '\\') (r : Str) :
    simpleUnescape (c :: r) = c :: simpleUnescape r := by
  simp [simpleUnescape, hc]

theorem char_toNat_inj {c d : Char} (h : c.toNat = d.toNat) : c = d := by
  have hc := Char.ofNat_toNat c
  rw [h, Char.ofNat_toNat] at hc
  exact hc.symm

/-- A content-body token that the encoder can produce, restricted to ASCII:
one of the two escape pairs, or a plain ASCII character that is neither a
quote nor a backslash. -/
def SimpleChunk (t : Str) : Prop :=
  t = ['\\', '\\'] ∨ t = ['\\', '"'] ∨
    ∃ c : Char, t = [c] ∧ c.toNat < 128 ∧ c ≠ '"' ∧ c ≠ '\\'

theorem uDec_plain_92_92 (X : List Nat) :
    uDec .plain (92 :: 92 :: X) = (uDec .plain X).map ('\\' :: ·) := rfl

theorem uDec_plain_92_34 (X : List Nat) :
    uDec .plain (92 :: 34 :: X) = (uDec .plain X).map ('"' :: ·) := rfl

theorem uDec_plain_ascii {b : Nat} (hb : ¬ b = 92) (X : List Nat) :
    uDec .plain (b :: X) = (uDec .plain X).map (chrNat b :: ·) := by
  simp [uDec, hb]

theorem utf8Bytes_ascii {c : Char} (h : c.toNat < 128) : utf8Bytes c = [c.toNat] := by
  simp [utf8Bytes, h]

theorem uDec_simple {ts : List Str} (h : ∀ t ∈ ts, SimpleChunk t) :
    uDec .plain (utf8Encode ts.flatten) = some (simpleUnescape ts.flatten) := by
  induction ts with
  | nil => rfl
  | cons t ts ih =>
    have ihr := ih (fun u hu => h u (by simp [hu]))
    rcases h t (by simp) with rfl | rfl | ⟨c, rfl, hlt, hq, hb⟩
    · rw [List.flatten_cons]
      have hby : utf8Encode (['\\', '\\'] ++ ts.flatten) =
          92 :: 92 :: utf8Encode ts.flatten := by
        rw [utf8Encode, List.flatMap_append]
        rfl
      rw [hby, uDec_plain_92_92, ihr, List.cons_append, List.cons_append,
        List.nil_append, sU_bb]
      rfl
    · rw [List.flatten_cons]
      have hby : utf8Encode (['\\', '"'] ++ ts.flatten) =
          92 :: 34 :: utf8Encode ts.flatten := by
        rw [utf8Encode, List.flatMap_append]
        rfl
      rw [hby, uDec_plain_92_34, ihr, List.cons_append, List.cons_append,
        List.nil_append, sU_bq]
      rfl
    · rw [List.flatten_cons]
      have hnb : ¬ c.toNat = 92 := fun hcn => hb (char_toNat_inj hcn)
      have hby : utf8Encode ([c] ++ ts.flatten) = c.toNat :: utf8Encode ts.flatten := by
        rw [utf8Encode, List.flatMap_append]
        rw [show ([c] : Str).flatMap utf8Bytes = utf8Bytes c ++ [].flatMap utf8Bytes from rfl]
        rw [utf8Bytes_ascii hlt, List.flatMap_nil, List.append_nil]
        rfl
      rw [hby, uDec_plain_ascii hnb, ihr, List.cons_append, List.nil_append,
        sU_plain hb]
      simp [chrNat, Char.ofNat_toNat]

theorem simpleUnescape_escape (s : Str) : simpleUnescape (escapeContent s) = s := by
  induction s with
  | nil => rfl
  | cons c cs ih =>
    rw [escapeContent_cons]
    by_cases hb : c = '\\'
    · subst hb
      rw [show specEscapeChar '\\' = ['\\', '\\'] from rfl, List.cons_append,
        List.cons_append, List.nil_append, sU_bb, ih]
    · by_cases hq : c = '"'
      · subst hq
        rw [show specEscapeChar '"' = ['\\', '"'] from rfl, List.cons_append,
          List.cons_append, List.nil_append, sU_bq, ih]
      · rw [show specEscapeChar c = [c] from by simp [specEscapeChar, hb, hq],
          List.cons_append, List.nil_append, sU_plain hb, ih]

theorem escape_chunks {s : Str} (h : ∀ c ∈ s, c.toNat < 128) :
    ∀ t ∈ s.map specEscapeChar, SimpleChunk t := by
  intro t ht
  obtain ⟨c, hc, rfl⟩ := List.mem_map.mp ht
  by_cases hb : c = '\\'
  · subst hb; exact Or.inl (by simp [specEscapeChar])
  · by_cases hq : c = '"'
    · subst hq; exact Or.inr (Or.inl (by simp [specEscapeChar, hb]))
    · exact Or.inr (Or.inr ⟨c, by simp [specEscapeChar, hb, hq], h c hc, hq, hb⟩)

theorem roundtrip_ascii {s : Str} (h : ∀ c ∈ s, c.toNat < 128) :
    unicodeEscape (utf8Encode (escapeContent s)) = some s := by
  have hflat : escapeContent s = (s.map specEscapeChar).flatten := by
    rw [escapeContent_eq, List.flatMap_def]
  rw [unicodeEscape, hflat, uDec_simple (escape_chunks h), ← hflat, simpleUnescape_escape]

/-! ## Parse-level helper lemmas -/

instance (s : Str) : Decidable (SpaceRun s) :=
  decidable_of_iff (s ≠ [] ∧ ∀ c ∈ s, isSpaceChar c = true) Iff.rfl

instance (s : Str) : Decidable (WordRun s) :=
  decidable_of_iff (s ≠ [] ∧ ∀ c ∈ s, isWordChar c = true) Iff.rfl

instance (s : Str) : Decidable (TokenRun s) :=
  decidable_of_iff (s ≠ [] ∧ ∀ c ∈ s, isTokenChar c = true) Iff.rfl

theorem chunkOK_of_simple {t : Str} (h : SimpleChunk t) : ChunkOK t := by
  rcases h with rfl | rfl | ⟨c, rfl, -, hq, hb⟩
  · exact Or.inl ⟨'\\', rfl, by decide⟩
  · exact Or.inl ⟨'"', rfl, by decide⟩
  · exact Or.inr ⟨c, rfl, hq, hb⟩

theorem serialize_head (m : ACLMessage) : (serialize m).head? = some '(' := rfl

theorem serialize_getLast (m : ACLMessage) : (serialize m).getLast? = some ')' := by
  rw [serialize, List.getLast?_append]
  rfl

theorem pyStrip_serialize (m : ACLMessage) : pyStrip (serialize m) = serialize m := by
  refine pyStrip_eq_self ?_ ?_
  · intro c hc
    rw [serialize_head] at hc
    simp only [Option.mem_def, Option.some.injEq] at hc
    subst hc
    decide
  · intro c hc
    rw [serialize_getLast] at hc
    simp only [Option.mem_def, Option.some.injEq] at hc
    subst hc
    decide

theorem serialize_nested (m : ACLMessage) :
    serialize m = "(performative".toList ++ ([' '] ++ (pyUpper m.performative ++ ([' '] ++
      (":sender".toList ++ ([' '] ++ (m.sender ++ ([' '] ++
      (":receiver".toList ++ ([' '] ++ (m.receiver ++ ([' '] ++
      (":content".toList ++ ([' '] ++ ('"' :: ((m.content.map specEscapeChar).flatten ++
      "\")".toList))))))))))))))) := by
  have e1 : "(performative ".toList = "(performative".toList ++ [' '] := rfl
  have e2 : " :sender ".toList = [' '] ++ (":sender".toList ++ [' ']) := rfl
  have e3 : " :receiver ".toList = [' '] ++ (":receiver".toList ++ [' ']) := rfl
  have e4 : " :content \"".toList = [' '] ++ (":content".toList ++ ([' '] ++ ['"'])) := rfl
  rw [serialize, escapeContent_eq, List.flatMap_def, e1, e2, e3, e4]
  simp only [List.append_assoc, List.singleton_append, List.cons_append, List.nil_append]

theorem matchACL_serialize (m : ACLMessage)
    (hP : WordRun (pyUpper m.performative)) (hS : TokenRun m.sender) (hR : TokenRun m.receiver)
    (hascii : ∀ c ∈ m.content, c.toNat < 128) :
    matchACL (serialize m) =
      some (pyUpper m.performative, m.sender, m.receiver,
        (m.content.map specEscapeChar).flatten) := by
  rw [serialize_nested]
  exact matchACL_complete (by decide) (by decide) (by decide) (by decide) (by decide)
    (by decide) (by decide) hP hS hR
    (fun t ht => chunkOK_of_simple (escape_chunks hascii t ht))

theorem parse_ok_performative {raw : Str} {m : ACLMessage} (h : parse raw = .ok m) :
    m.performative = "REQUEST".toList ∨ m.performative = "INFORM".toList := by
  rw [parse] at h
  match hm : matchACL (pyStrip raw) with
  | none => rw [hm] at h; exact absurd h (by simp)
  | some (P, S, R, body) =>
    rw [hm] at h
    simp only at h
    by_cases hp : pyUpper P ∈ ALLOWED_PERFORMATIVES
    · rw [if_pos hp] at h
      match hu : unicodeEscape (utf8Encode body) with
      | none => rw [hu] at h; exact absurd h (by simp)
      | some content =>
        rw [hu] at h
        simp only [Except.ok.injEq] at h
        have hperf : m.performative = pyUpper P := by rw [← h]
        rw [hperf]
        simpa [ALLOWED_PERFORMATIVES] using hp
    · rw [if_neg hp] at h
      exact absurd h (by simp)

theorem loggerAdd_entries (st : LoggerState) (n e : Str) :
    (loggerAdd st n e).entries = st.entries ++ [⟨st.current, n, e⟩] := rfl

end AgentComm

deriving instance DecidableEq for Except

namespace AgentComm

/-! ## Claim theorems -/

/-- C4. `serialize` produces exactly
`(performative P :sender S :receiver R :content "C")` where `P` is the
performative uppercased, `S` and `R` are the sender and receiver verbatim
(no validation at encode time), and `C` is the content with the
backslash-doubling pass applied before the quote-escaping pass — which
together amount to the single per-character substitution `specEscapeChar`
and no other transformation. -/
theorem serialize_exact_form (m : ACLMessage) :
    serialize m = "(performative ".toList ++ pyUpper m.performative ++
      " :sender ".toList ++ m.sender ++
      " :receiver ".toList ++ m.receiver ++
      " :content \"".toList ++ m.content.flatMap specEscapeChar ++ "\")".toList := by
  rw [serialize, escapeContent_eq]

/-- C5. If the message's sender differs from the calling actor's identity,
`send` fails with the sender-mismatch error and the failure is atomic:
the returned logger state is exactly the input state (no log entry was
appended by either actor, and the target's receive was never reached). -/
theorem send_sender_mismatch (selfName otherName : Str) (m : ACLMessage)
    (st : LoggerState) (h : m.sender ≠ selfName) :
    send selfName otherName m st = (st, some (.senderMismatch m.sender selfName)) := by
  rw [send, if_pos h]

/-- Witness for C5 at a concrete mismatching message. -/
theorem send_sender_mismatch_witness :
    send "PlannerAgent".toList "WorkerAgent".toList
      ⟨"REQUEST".toList, "Intruder".toList, "WorkerAgent".toList, "hi".toList⟩
      ⟨[], demoStart⟩ =
    (⟨[], demoStart⟩, some (.senderMismatch "Intruder".toList "PlannerAgent".toList)) :=
  send_sender_mismatch "PlannerAgent".toList "WorkerAgent".toList
    ⟨"REQUEST".toList, "Intruder".toList, "WorkerAgent".toList, "hi".toList⟩
    ⟨[], demoStart⟩ (by decide)

/-- C6. On any input whose decode fails, `receive` returns normally (it is
a total function of the logger state) and appends exactly one log entry,
whose text contains `Rejected malformed ACL message` and the error
detail. -/
theorem receive_rejects_malformed (name raw : Str) (st : LoggerState) (e : ParseError)
    (h : parse raw = .error e) :
    (receive name raw st).entries = st.entries ++
      [⟨st.current, name, "Rejected malformed ACL message | ".toList ++ renderError e⟩] ∧
    "Rejected malformed ACL message".toList <:+:
      ("Rejected malformed ACL message | ".toList ++ renderError e) ∧
    renderError e <:+:
      ("Rejected malformed ACL message | ".toList ++ renderError e) := by
  refine ⟨by simp [receive, h, loggerAdd], ?_, ?_⟩
  · refine ⟨[], " | ".toList ++ renderError e, ?_⟩
    rw [List.nil_append, ← List.append_assoc]
    rfl
  · exact ⟨"Rejected malformed ACL message | ".toList, [], by simp⟩

/-- Witness for C6 at a concrete malformed input. -/
theorem receive_rejects_malformed_witness :
    (receive "WorkerAgent".toList "not acl".toList ⟨[], demoStart⟩).entries =
      [⟨demoStart, "WorkerAgent".toList,
        "Rejected malformed ACL message | ".toList ++
          renderError (.invalidFormat "not acl".toList)⟩] :=
  (receive_rejects_malformed "WorkerAgent".toList "not acl".toList ⟨[], demoStart⟩
    (.invalidFormat "not acl".toList) (by decide)).1

/-- C7. A well-formed message whose receiver is not this actor produces
exactly one `Ignored message for …` log entry (naming the intended
receiver, the sender and the content) and changes nothing else: the new
logger state is the old one with that single entry appended. -/
theorem receive_ignores_misaddressed (name raw : Str) (st : LoggerState) (m : ACLMessage)
    (h : parse raw = .ok m) (hne : m.receiver ≠ name) :
    receive name raw st = loggerAdd st name ("Ignored message for ".toList ++ m.receiver ++
      " from ".toList ++ m.sender ++ " | ".toList ++ m.content) ∧
    (receive name raw st).entries = st.entries ++
      [⟨st.current, name, "Ignored message for ".toList ++ m.receiver ++
        " from ".toList ++ m.sender ++ " | ".toList ++ m.content⟩] ∧
    ("Ignored message for ".toList ++ m.receiver) <:+:
      ("Ignored message for ".toList ++ m.receiver ++
        " from ".toList ++ m.sender ++ " | ".toList ++ m.content) := by
  refine ⟨by simp [receive, h, hne], by simp [receive, h, hne, loggerAdd], ?_⟩
  exact ⟨[], " from ".toList ++ m.sender ++ " | ".toList ++ m.content,
    by simp [List.append_assoc]⟩

/-- Witness for C7: WorkerAgent receiving a message addressed to
OtherAgent ignores it with a single log entry. -/
theorem receive_ignores_misaddressed_witness :
    (receive "WorkerAgent".toList
      "(performative REQUEST :sender PlannerAgent :receiver OtherAgent :content \"Ignore this\")".toList
      ⟨[], demoStart⟩).entries =
    [⟨demoStart, "WorkerAgent".toList, "Ignored message for ".toList ++ "OtherAgent".toList ++
      " from ".toList ++ "PlannerAgent".toList ++ " | ".toList ++ "Ignore this".toList⟩] :=
  (receive_ignores_misaddressed "WorkerAgent".toList
    "(performative REQUEST :sender PlannerAgent :receiver OtherAgent :content \"Ignore this\")".toList
    ⟨[], demoStart⟩
    ⟨"REQUEST".toList, "PlannerAgent".toList, "OtherAgent".toList, "Ignore this".toList⟩
    (by decide) (by decide)).2.1

/-- C8. The demo exchange produces exactly six log entries, in order:
PlannerAgent's `Sent REQUEST to WorkerAgent`, WorkerAgent's
`Received REQUEST from PlannerAgent`, `Processing REQUEST action` and
`Sent INFORM to PlannerAgent`, then PlannerAgent's
`Received INFORM from WorkerAgent` and `Acknowledged INFORM update`; the
synthetic clock starts at `demoStart` and advances one unit per entry, so
the first and last timestamps are exactly five units apart. -/
theorem runDemo_entries :
    runDemo.entries = [
      ⟨demoStart, "PlannerAgent".toList,
        "Sent REQUEST to WorkerAgent | Collect temperature readings in Zone A".toList⟩,
      ⟨demoStart + 1, "WorkerAgent".toList,
        "Received REQUEST from PlannerAgent | Collect temperature readings in Zone A".toList⟩,
      ⟨demoStart + 2, "WorkerAgent".toList,
        "Processing REQUEST action: Collect temperature readings in Zone A".toList⟩,
      ⟨demoStart + 3, "WorkerAgent".toList,
        "Sent INFORM to PlannerAgent | Zone A readings complete: avg=24.3C".toList⟩,
      ⟨demoStart + 4, "PlannerAgent".toList,
        "Received INFORM from WorkerAgent | Zone A readings complete: avg=24.3C".toList⟩,
      ⟨demoStart + 5, "PlannerAgent".toList,
        "Acknowledged INFORM update: Zone A readings complete: avg=24.3C".toList⟩] ∧
    (runDemo.entries.head?.map fun en => en.time) = some demoStart ∧
    (runDemo.entries.getLast?.map fun en => en.time) = some (demoStart + 5) := by
  decide

/-- The logger grows by appending under any single operation: helper for
C9, by case analysis on every branch of `receive`. -/
theorem receive_entries_extend (n r : Str) (st : LoggerState) :
    st.entries <+: (receive n r st).entries := by
  match hp : parse r with
  | .error e =>
    simp only [receive, hp, loggerAdd_entries]
    exact List.prefix_append _ _
  | .ok m =>
    by_cases hr : m.receiver ≠ n
    · simp only [receive, hp, if_pos hr, loggerAdd_entries]
      exact List.prefix_append _ _
    · rcases hperf : handlers m.performative with - | h
      · simp only [receive, hp, if_neg hr, hperf, loggerAdd_entries, List.append_assoc]
        exact List.prefix_append _ _
      · have hcases : h = handleRequest ∨ h = handleInform := by
          rw [handlers] at hperf
          split at hperf
          · exact Or.inl (Option.some.inj hperf).symm
          · split at hperf
            · exact Or.inr (Option.some.inj hperf).symm
            · exact absurd hperf (by simp)
        rcases hcases with rfl | rfl
        · simp only [receive, hp, if_neg hr, hperf, handleRequest, loggerAdd_entries,
            List.append_assoc]
          exact List.prefix_append _ _
        · simp only [receive, hp, if_neg hr, hperf, handleInform, loggerAdd_entries,
            List.append_assoc]
          exact List.prefix_append _ _

/-- C9. The shared event record is append-only: every operation (a send,
failing or not, or a receive of arbitrary wire text) maps a logger state
to one whose entry list extends the old list — the old entries are a
prefix of the new ones, never mutated, reordered or removed. -/
theorem applyOp_append_only (op : AgentOp) (st : LoggerState) :
    st.entries <+: (applyOp op st).entries := by
  match op with
  | .recv n r => exact receive_entries_extend n r st
  | .send s o m =>
    by_cases h : m.sender ≠ s
    · rw [applyOp, send, if_pos h]
    · rw [applyOp, send, if_neg h]
      show st.entries <+: (receive o (serialize m) (loggerAdd st s ("Sent ".toList ++
        pyUpper m.performative ++ " to ".toList ++ o ++ " | ".toList ++ m.content))).entries
      refine List.IsPrefix.trans ?_ (receive_entries_extend o (serialize m)
        (loggerAdd st s ("Sent ".toList ++ pyUpper m.performative ++ " to ".toList ++ o ++
          " | ".toList ++ m.content)))
      rw [loggerAdd_entries]
      exact List.prefix_append _ _

/-- C10. Acceptance never looks at the sender: for any successfully
decoded message addressed to this actor, `receive` appends the receipt
entry and dispatches to the performative's handler, whatever the sender
token is (it may name no actor, or the receiving actor itself) — the
sender only appears in the entry text. -/
theorem receive_dispatch_ignores_sender (name raw : Str) (st : LoggerState)
    (m : ACLMessage) (h : parse raw = .ok m) (hrecv : m.receiver = name) :
    (receive name raw st).entries = st.entries ++
      [⟨st.current, name, "Received ".toList ++ m.performative ++ " from ".toList ++
        m.sender ++ " | ".toList ++ m.content⟩,
       ⟨st.current + 1, name,
        (if m.performative = "REQUEST".toList then "Processing REQUEST action: ".toList
         else "Acknowledged INFORM update: ".toList) ++ m.content⟩] := by
  rcases parse_ok_performative h with hperf | hperf <;>
    simp [receive, h, hrecv, hperf, handlers, handleRequest, handleInform,
      loggerAdd_entries, loggerAdd]

/-- Witness for C10: an actor accepts and dispatches a message that names
itself as the sender. -/
theorem receive_dispatch_ignores_sender_witness :
    (receive "WorkerAgent".toList
      "(performative INFORM :sender WorkerAgent :receiver WorkerAgent :content \"self\")".toList
      ⟨[], demoStart⟩).entries =
    [⟨demoStart, "WorkerAgent".toList, "Received ".toList ++ "INFORM".toList ++
      " from ".toList ++ "WorkerAgent".toList ++ " | ".toList ++ "self".toList⟩,
     ⟨demoStart + 1, "WorkerAgent".toList,
      (if ("INFORM".toList : Str) = "REQUEST".toList then "Processing REQUEST action: ".toList
       else "Acknowledged INFORM update: ".toList) ++ "self".toList⟩] :=
  receive_dispatch_ignores_sender "WorkerAgent".toList
    "(performative INFORM :sender WorkerAgent :receiver WorkerAgent :content \"self\")".toList
    ⟨[], demoStart⟩
    ⟨"INFORM".toList, "WorkerAgent".toList, "WorkerAgent".toList, "self".toList⟩
    (by decide) (by decide)

/-- C1 counterexample. The round-trip claim fails for non-ASCII content:
for the valid message with content `é`, decoding the encoding succeeds but
returns content `Ã©` (the UTF-8 bytes of `é` read back as Latin-1 by the
`unicode_escape` codec), which differs from the original message. -/
theorem roundtrip_nonascii_counterexample :
    parse (serialize ⟨"REQUEST".toList, "A".toList, "B".toList, ['é']⟩) =
      .ok ⟨"REQUEST".toList, "A".toList, "B".toList, ['Ã', '©']⟩ ∧
    (⟨"REQUEST".toList, "A".toList, "B".toList, ['Ã', '©']⟩ : ACLMessage) ≠
      ⟨pyUpper "REQUEST".toList, "A".toList, "B".toList, ['é']⟩ := by
  decide

/-- C1 (amended). Round-trip: for every message whose sender and receiver
are non-empty word-character/hyphen tokens, whose performative uppercases
into {REQUEST, INFORM}, and whose content is ASCII (arbitrary otherwise:
quotes, backslashes, and control characters included), decoding the
encoding succeeds and returns the message with its performative
uppercased.  (Non-ASCII content is excluded by the counterexample.) -/
theorem roundtrip_ascii_content (m : ACLMessage)
    (hp : pyUpper m.performative = "REQUEST".toList ∨
      pyUpper m.performative = "INFORM".toList)
    (hS : TokenRun m.sender) (hR : TokenRun m.receiver)
    (hascii : ∀ c ∈ m.content, c.toNat < 128) :
    parse (serialize m) = .ok ⟨pyUpper m.performative, m.sender, m.receiver, m.content⟩ := by
  have hP : WordRun (pyUpper m.performative) := by
    rcases hp with hp | hp <;> rw [hp] <;> exact ⟨by decide, by decide⟩
  have hmatch := matchACL_serialize m hP hS hR hascii
  have hdec : unicodeEscape (utf8Encode ((m.content.map specEscapeChar).flatten)) =
      some m.content := by
    rw [← List.flatMap_def, ← escapeContent_eq]
    exact roundtrip_ascii hascii
  have hstrip := pyStrip_serialize m
  have hup : pyUpper (pyUpper m.performative) = pyUpper m.performative := by
    rcases hp with hp | hp <;> rw [hp] <;> decide
  have hmem : pyUpper m.performative ∈ ALLOWED_PERFORMATIVES := by
    rcases hp with hp | hp <;> rw [hp] <;> decide
  simp [parse, hstrip, hmatch, hdec, hmem, hup]

/-- Witness for the amended C1 at a message with quotes, backslashes and a
control character in the content. -/
theorem roundtrip_ascii_content_witness :
    parse (serialize ⟨"request".toList, "Planner-Agent_1".toList, "Worker".toList,
      "say \"hi\" at C:\\temp\nok".toList⟩) =
    .ok ⟨pyUpper "request".toList, "Planner-Agent_1".toList, "Worker".toList,
      "say \"hi\" at C:\\temp\nok".toList⟩ :=
  roundtrip_ascii_content
    ⟨"request".toList, "Planner-Agent_1".toList, "Worker".toList,
      "say \"hi\" at C:\\temp\nok".toList⟩
    (by decide) (by decide) (by decide) (by decide)

/-- C2 counterexample. The claim requires the literal `(performative `
with single spaces and says every other input fails; but the pattern uses
`\s+`, so an input with two spaces after `performative` — not of the
claimed form — decodes successfully. -/
theorem parse_double_space_counterexample :
    parse "(performative  REQUEST :sender A :receiver B :content \"x\")".toList =
      .ok ⟨"REQUEST".toList, "A".toList, "B".toList, "x".toList⟩ := by
  decide

/-- C2 (amended). The claimed exact characterization fails in both
directions: the counterexample shows an input outside the claimed
single-space grammar that decodes, and a grammar-matching body such as
`\xZZ` still fails inside the content codec.  What holds — stated over
the fragment on which `gramParts`' character classes and `unicodeEscape`
under-approximate the program's Unicode-aware `\w`/`\s` and its
`unicode_escape` codec, so that each hypothesis below also implies the
corresponding behavior of the program — is: (i) every input that after
trimming decomposes per the grammar, with runs of one-or-more whitespace
characters between tokens and any backslash-(non-newline) pair as a body
escape, whose uppercased performative is in {REQUEST, INFORM} and whose
body the codec accepts, decodes successfully and returns exactly the
decomposition's fields with the decoded body; and (ii) such an input
whose uppercased performative is outside the set fails with the format
error naming that uppercased performative. -/
theorem parse_grammar_sufficiency (raw : Str) :
    (∀ P S R body content, gramParts (pyStrip raw) P S R body →
      pyUpper P ∈ ALLOWED_PERFORMATIVES →
      unicodeEscape (utf8Encode body) = some content →
      parse raw = .ok ⟨pyUpper P, S, R, content⟩) ∧
    (∀ P S R body, gramParts (pyStrip raw) P S R body →
      pyUpper P ∉ ALLOWED_PERFORMATIVES →
      parse raw = .error (.unsupportedPerformative (pyUpper P))) := by
  constructor
  · intro P S R body content hg hp hc
    have hmm := matchACL_of_gramParts hg
    simp [parse, hmm, hp, hc]
  · intro P S R body hg hp
    have hmm := matchACL_of_gramParts hg
    simp [parse, hmm, hp]

/-- Witness for C2 at concrete inputs: a well-formed REQUEST decomposes
per the grammar and decodes to its fields, and a structurally valid
PROPOSE message fails with the error naming PROPOSE. -/
theorem parse_grammar_sufficiency_witness :
    parse "(performative REQUEST :sender A :receiver B :content \"x\")".toList =
      .ok ⟨pyUpper "REQUEST".toList, "A".toList, "B".toList, "x".toList⟩ ∧
    parse "(performative PROPOSE :sender A1 :receiver A2 :content \"hello\")".toList =
      .error (.unsupportedPerformative (pyUpper "PROPOSE".toList)) := by
  have hgram : gramParts (pyStrip
      "(performative REQUEST :sender A :receiver B :content \"x\")".toList)
      "REQUEST".toList "A".toList "B".toList "x".toList := by
    refine ⟨[' '], [' '], [' '], [' '], [' '], [' '], [' '], (by decide), (by decide),
      (by decide), (by decide), (by decide), (by decide), (by decide), (by decide),
      (by decide), (by decide), ⟨[['x']], by decide, ?_⟩, by decide⟩
    intro t ht
    simp only [List.mem_singleton] at ht
    subst ht
    exact Or.inr ⟨'x', rfl, by decide, by decide⟩
  have hgram2 : gramParts (pyStrip
      "(performative PROPOSE :sender A1 :receiver A2 :content \"hello\")".toList)
      "PROPOSE".toList "A1".toList "A2".toList "hello".toList := by
    refine ⟨[' '], [' '], [' '], [' '], [' '], [' '], [' '], (by decide), (by decide),
      (by decide), (by decide), (by decide), (by decide), (by decide), (by decide),
      (by decide), (by decide),
      ⟨[['h'], ['e'], ['l'], ['l'], ['o']], by decide, ?_⟩, by decide⟩
    intro t ht
    fin_cases ht <;> exact Or.inr ⟨_, rfl, by decide, by decide⟩
  refine ⟨?_, ?_⟩
  · exact (parse_grammar_sufficiency
      "(performative REQUEST :sender A :receiver B :content \"x\")".toList).1
      "REQUEST".toList "A".toList "B".toList "x".toList "x".toList hgram
      (by decide) (by decide)
  · exact (parse_grammar_sufficiency
      "(performative PROPOSE :sender A1 :receiver A2 :content \"hello\")".toList).2
      "PROPOSE".toList "A1".toList "A2".toList "hello".toList hgram2 (by decide)

/-- C3 counterexample. The claim says decoding only reverses the two
encode-time substitutions and alters nothing else; but the body `\n`
(backslash-n, a legal escape pair of the grammar that plain substitution
would leave unchanged) decodes to a literal newline. -/
theorem unescape_backslash_n_counterexample :
    matchACL (pyStrip
      "(performative REQUEST :sender A :receiver B :content \"\\n\")".toList) =
      some ("REQUEST".toList, "A".toList, "B".toList, ['\\', 'n']) ∧
    parse "(performative REQUEST :sender A :receiver B :content \"\\n\")".toList =
      .ok ⟨"REQUEST".toList, "A".toList, "B".toList, ['\n']⟩ ∧
    simpleUnescape ['\\', 'n'] = ['\\', 'n'] ∧
    (['\n'] : Str) ≠ ['\\', 'n'] := by
  decide

/-- C3 (amended). On a successful decode whose matched content body
consists only of the encoder's tokens — the escape pairs `\\` and `\"`
and plain ASCII characters — the returned content is exactly the body
with the two encode-time substitutions reversed and no other character
altered; bodies with other escape pairs are instead interpreted under
Python's escape rules (see the counterexample). -/
theorem parse_content_simple_unescape {raw P S R : Str} {ts : List Str} {m : ACLMessage}
    (hm : matchACL (pyStrip raw) = some (P, S, R, ts.flatten))
    (hts : ∀ t ∈ ts, SimpleChunk t)
    (hok : parse raw = .ok m) :
    m.content = simpleUnescape ts.flatten := by
  rw [parse, hm] at hok
  simp only at hok
  by_cases hp : pyUpper P ∈ ALLOWED_PERFORMATIVES
  · rw [if_pos hp] at hok
    have hdec : unicodeEscape (utf8Encode ts.flatten) = some (simpleUnescape ts.flatten) :=
      uDec_simple hts
    rw [hdec] at hok
    simp only [Except.ok.injEq] at hok
    rw [← hok]
  · rw [if_neg hp] at hok
    exact absurd hok (by simp)

/-- Witness for the amended C3 at a body mixing plain characters and both
escape pairs. -/
theorem parse_content_simple_unescape_witness :
    (⟨"REQUEST".toList, "A".toList, "B".toList, ['a', '"', 'b', '\\', 'c']⟩ :
        ACLMessage).content =
      simpleUnescape ([['a'], ['\\', '"'], ['b'], ['\\', '\\'], ['c']] :
        List Str).flatten :=
  parse_content_simple_unescape
    (by decide :
      matchACL (pyStrip
        "(performative REQUEST :sender A :receiver B :content \"a\\\"b\\\\c\")".toList) =
      some ("REQUEST".toList, "A".toList, "B".toList,
        ([['a'], ['\\', '"'], ['b'], ['\\', '\\'], ['c']] : List Str).flatten))
    (by
      intro t ht
      fin_cases ht
      · exact Or.inr (Or.inr ⟨'a', rfl, by decide, by decide, by decide⟩)
      · exact Or.inr (Or.inl rfl)
      · exact Or.inr (Or.inr ⟨'b', rfl, by decide, by decide, by decide⟩)
      · exact Or.inl rfl
      · exact Or.inr (Or.inr ⟨'c', rfl, by decide, by decide, by decide⟩))
    (by decide)

end AgentComm
